import Mathlib

/-!
Shallow embedding of the message ingestion, deduplication and fan-out core of
the whatsmeow-golang bridge (src/main.go).

The embedding covers:

* the SQLite `messages` table created by `initDatabase` (columns
  `id INTEGER PRIMARY KEY AUTOINCREMENT, sender, message, timestamp`,
  with `UNIQUE(sender, message, timestamp)`), modelled as `Store`;
* the commit performed by `handleIncomingMessage`, i.e. the statement
  `INSERT OR REPLACE INTO messages (id, sender, message, timestamp)
   VALUES ((SELECT id FROM messages WHERE sender = ? AND message = ?), ?, ?, ?)`,
  modelled as `commit` (SQLite REPLACE semantics: every row conflicting on
  the rowid chosen by the subquery or on the UNIQUE triple is deleted and the
  new row is inserted; a NULL id from the subquery allocates the next
  autoincrement id);
* the snapshot query of `receiveMessage`
  (`SELECT sender, message, timestamp FROM messages ORDER BY timestamp ASC`),
  modelled as `history`;
* the websocket fan-out `broadcastMessage` (iterate over `wsClients` under
  `wsMutex`, write to each, close and delete a client whose write fails),
  modelled both as a function on the registry (`broadcastMessage`) and as an
  event trace recording lock operations (`broadcastTrace`), the latter to
  settle lock-scope properties;
* the ingest dispatcher `handleIncomingMessage` (type switch on
  `*events.Message` / `Request` / default, Asia/Jakarta timestamp rendering,
  commit, broadcast) and the HTTP handlers `sendMessage` and
  `receiveMessage`.

Machine-level aspects that the Go code leaves to collaborators (gin JSON
binding, JID parsing, the whatsmeow send call, the SQLite driver I/O layer,
the timezone database) are modelled as boolean outcome parameters, since the
repository only branches on their success or failure.
-/

/-- One row of the `messages` table: `id` is the SQLite rowid
(`INTEGER PRIMARY KEY AUTOINCREMENT`), the remaining fields are the three
`TEXT NOT NULL` columns. -/
structure Row where
  id : Nat
  sender : String
  message : String
  timestamp : String
deriving DecidableEq, Repr

/-- The `messages` table: rows in rowid order plus the next autoincrement id.
A fresh database starts with autoincrement value 1. -/
structure Store where
  rows : List Row
  nextId : Nat
deriving DecidableEq, Repr

/-- The state of the table right after `initDatabase` creates it. -/
def emptyStore : Store := ⟨[], 1⟩

/-- The `WHERE sender = ? AND message = ?` condition of the id subquery in
the commit statement of `handleIncomingMessage`. -/
def rowMatchesSM (s b : String) (r : Row) : Bool :=
  r.sender == s && r.message == b

/-- The `UNIQUE(sender, message, timestamp)` conflict condition of the
`messages` table schema. -/
def rowMatchesTriple (s b t : String) (r : Row) : Bool :=
  rowMatchesSM s b r && r.timestamp == t

/-- The commit `db.Exec` of `handleIncomingMessage`:
`INSERT OR REPLACE INTO messages (id, sender, message, timestamp)
 VALUES ((SELECT id FROM messages WHERE sender = ? AND message = ?), ?, ?, ?)`.

If the subquery finds a row (first row whose sender and message match), the
insert reuses its rowid: REPLACE deletes every row conflicting on that rowid
or on the UNIQUE triple and inserts the new row in its place.  If the
subquery yields NULL, the insert allocates the next autoincrement id and
appends the row; rows conflicting on the UNIQUE triple would be deleted by
REPLACE (none can exist in that branch, since a triple match implies a
sender/message match).  REPLACE resolves uniqueness conflicts internally, so
this statement never reports a constraint violation; its only failure mode in
the Go code is a storage-layer fault, modelled separately by `World.dbFail`. -/
def commit (st : Store) (s b t : String) : Store :=
  match st.rows.find? (rowMatchesSM s b) with
  | some r0 =>
      { rows := (st.rows.filter (fun r => r.id == r0.id || !rowMatchesTriple s b t r)).map
          (fun r => if r.id == r0.id then Row.mk r0.id s b t else r),
        nextId := st.nextId }
  | none =>
      { rows := st.rows.filter (fun r => !rowMatchesTriple s b t r) ++ [Row.mk st.nextId s b t],
        nextId := st.nextId + 1 }

/-- Comparison used by `ORDER BY timestamp ASC` on the TEXT column. -/
def tsLe : Row → Row → Prop := fun a b => a.timestamp ≤ b.timestamp

instance : DecidableRel tsLe := fun a b => String.decidableLE a.timestamp b.timestamp

instance rowTsTotal : IsTotal Row tsLe := ⟨fun a b => le_total a.timestamp b.timestamp⟩

instance rowTsTrans : IsTrans Row tsLe := ⟨fun _ _ _ h1 h2 => le_trans h1 h2⟩

/-- The snapshot query of `receiveMessage`:
`SELECT sender, message, timestamp FROM messages ORDER BY timestamp ASC`. -/
def history (st : Store) : List Row := st.rows.insertionSort tsLe

/-- Store states reachable through the ingest commit path, starting from the
table `initDatabase` creates. -/
inductive Reachable : Store → Prop
  | empty : Reachable emptyStore
  | step (st : Store) (s b t : String) : Reachable st → Reachable (commit st s b t)

/-- A websocket client connection (`*websocket.Conn`), identified by the
connection itself; modelled as an opaque identifier. -/
abbrev Conn := Nat

/-- The fan-out loop of `broadcastMessage`: iterate over the registered
clients; on a failed `WriteJSON` the client is closed and deleted from
`wsClients`.  Result: the registry after the loop and the list of clients to
which a delivery attempt (a `WriteJSON` call) was made.  The loop itself has
no failure exit: it runs to completion regardless of individual write
outcomes. -/
def broadcastMessage (clients : List Conn) (writeFails : Conn → Bool) :
    List Conn × List Conn :=
  clients.foldl
    (fun acc c => (if writeFails c then acc.1 else acc.1 ++ [c], acc.2 ++ [c]))
    ([], [])

/-- Events of the `broadcastMessage` body, in program order:
`wsMutex.Lock()`, per-client `client.WriteJSON`, `client.Close()`,
`delete(wsClients, client)`, and the deferred `wsMutex.Unlock()`. -/
inductive BEv where
  | lockAcq
  | sendJSON (c : Conn)
  | connClose (c : Conn)
  | connDrop (c : Conn)
  | lockRel
deriving DecidableEq, Repr

/-- The event trace of one `broadcastMessage` call: the mutex is taken first,
the whole iterate-and-send loop runs, and the deferred unlock releases the
mutex at function exit. -/
def broadcastTrace (clients : List Conn) (writeFails : Conn → Bool) : List BEv :=
  [BEv.lockAcq] ++
    (clients.flatMap (fun c =>
      BEv.sendJSON c ::
        (if writeFails c then [BEv.connClose c, BEv.connDrop c] else []))) ++
    [BEv.lockRel]

/-- Clients whose `WriteJSON` call happens while the mutex is held, read off
an event trace; the boolean argument is the lock state at the start of the
trace. -/
def sendsLocked : List BEv → Bool → List Conn
  | [], _ => []
  | BEv.lockAcq :: evs, _ => sendsLocked evs true
  | BEv.lockRel :: evs, _ => sendsLocked evs false
  | BEv.sendJSON c :: evs, locked =>
      (if locked then [c] else []) ++ sendsLocked evs locked
  | BEv.connClose _ :: evs, locked => sendsLocked evs locked
  | BEv.connDrop _ :: evs, locked => sendsLocked evs locked

/-- An input to `handleIncomingMessage`, whose parameter has type
`interface\x7b\x7d` and is dispatched by a type switch: a `*events.Message`
delivered by the whatsmeow event handler (carrying the sender JID, the
conversation text and the event timestamp rendered in Asia/Jakarta), a
`Request` from the `sendMessage` handler, or a value of any other type
(the switch default). -/
inductive InMsg where
  | external (sender body ts : String)
  | localSend (recipient body : String)
  | other
deriving DecidableEq, Repr

/-- Outcomes of the collaborators `handleIncomingMessage` consults.
`tzAvailable` is whether `time.LoadLocation ("Asia/Jakarta")` succeeds — its
error return is discarded with `_`, so on failure the code proceeds with a
nil `*time.Location`, and the later `Time.In(loc)` call panics.  `now` is
the current instant rendered in that location (used for the hard-coded local
sender path).  `dbFail` is whether the commit `db.Exec` reports a
storage-layer fault. -/
structure World where
  tzAvailable : Bool
  now : String
  dbFail : Bool
deriving DecidableEq, Repr

/-- The hard-coded sender JID used for locally-originated messages. -/
def localSenderJID : String := "6285123945816@s.whatsapp.net"

/-- The JSON object handed to `broadcastMessage`. -/
structure Payload where
  sender : String
  message : String
  timestamp : String
deriving DecidableEq, Repr

/-- The ingest dispatcher `handleIncomingMessage`.  Returns `none` when the
function panics (nil-location `Time.In` call), in which case neither the
commit nor the broadcast has happened; otherwise returns the store after the
commit attempt together with the payload handed to `broadcastMessage`
(`none` when the commit failed and the function returned early after
logging, so that nothing is broadcast).  The switch default logs the
unsupported type and returns before touching the location, the store or the
broadcaster. -/
def handleIncomingMessage (w : World) (st : Store) (input : InMsg) :
    Option (Store × Option Payload) :=
  match input with
  | InMsg.other => some (st, none)
  | InMsg.external s b ts =>
      if w.tzAvailable then
        if w.dbFail then some (st, none)
        else some (commit st s b ts, some ⟨s, b, ts⟩)
      else none
  | InMsg.localSend _ b =>
      if w.tzAvailable then
        if w.dbFail then some (st, none)
        else some (commit st localSenderJID b w.now,
                   some ⟨localSenderJID, b, w.now⟩)
      else none

/-- The body of a `POST /send-message` request (Go type `Request`). -/
structure SendRequest where
  recipient : String
  message : String
deriving DecidableEq, Repr

/-- The `sendMessage` HTTP handler.  `bindOk` is the outcome of
`c.ShouldBindJSON`, `jidOk` of `parseJID`, `sendOk` of
`client.SendMessage`; the handler returns early with 400 / 400 / 500 on
their respective failures and only on send success runs
`handleIncomingMessage` on the request and responds 200.  Result: HTTP
status, store after the handler, and the payload broadcast (if any);
`none` propagates a panic from the ingest path. -/
def sendMessage (w : World) (st : Store) (bindOk jidOk sendOk : Bool)
    (req : SendRequest) : Option (Nat × Store × Option Payload) :=
  if bindOk = false then some (400, st, none)
  else if jidOk = false then some (400, st, none)
  else if sendOk = false then some (500, st, none)
  else
    (handleIncomingMessage w st (InMsg.localSend req.recipient req.message)).map
      (fun p => (200, p.1, p.2))

/-- The JSON body shapes `receiveMessage` can respond with. -/
inductive ReceiveBody where
  | errorFetch
  | errorIterate
  | noMessages
  | messageList (rows : List Row)
deriving DecidableEq, Repr

/-- The `receiveMessage` HTTP handler: 500 if the snapshot query fails, 500
if `rows.Err()` reports an iteration error, otherwise 200 with the explicit
no-messages marker when the scanned list is empty and 200 with the ordered
list when it is not. -/
def receiveMessage (qFail iterFail : Bool) (st : Store) : Nat × ReceiveBody :=
  if qFail then (500, ReceiveBody.errorFetch)
  else if iterFail then (500, ReceiveBody.errorIterate)
  else if (history st).length = 0 then (200, ReceiveBody.noMessages)
  else (200, ReceiveBody.messageList (history st))

/-- Distinctness of the dedup subquery key: two rows differ on the
(sender, message) pair. -/
def smDistinct (r1 r2 : Row) : Prop :=
  ¬(r1.sender = r2.sender ∧ r1.message = r2.message)

/-- Store well-formedness maintained by the commit path: rows are pairwise
distinct on the (sender, message) subquery key, rowids are pairwise
distinct, and every rowid is below the autoincrement counter. -/
def StoreInv (st : Store) : Prop :=
  st.rows.Pairwise smDistinct ∧
    st.rows.Pairwise (fun r1 r2 => r1.id ≠ r2.id) ∧
    ∀ r ∈ st.rows, r.id < st.nextId

theorem rowMatchesSM_iff (s b : String) (r : Row) :
    rowMatchesSM s b r = true ↔ (r.sender = s ∧ r.message = b) := by
  simp [rowMatchesSM]

theorem rowMatchesTriple_iff (s b t : String) (r : Row) :
    rowMatchesTriple s b t r = true ↔
      (r.sender = s ∧ r.message = b ∧ r.timestamp = t) := by
  simp [rowMatchesTriple, rowMatchesSM, and_assoc]

theorem sm_of_triple {s b t : String} {r : Row}
    (h : rowMatchesTriple s b t r = true) : rowMatchesSM s b r = true := by
  rw [rowMatchesTriple_iff] at h
  rw [rowMatchesSM_iff]
  exact ⟨h.1, h.2.1⟩

theorem sm_unique {st : Store} (hInv : StoreInv st) {s b : String} {r1 r2 : Row}
    (h1 : r1 ∈ st.rows) (h2 : r2 ∈ st.rows)
    (m1 : rowMatchesSM s b r1 = true) (m2 : rowMatchesSM s b r2 = true) :
    r1 = r2 := by
  by_contra hne
  have hsym : Symmetric smDistinct := by
    intro x y hxy hc
    exact hxy ⟨hc.1.symm, hc.2.symm⟩
  have hd := List.Pairwise.forall hsym hInv.1 h1 h2 hne
  rw [rowMatchesSM_iff] at m1 m2
  exact hd ⟨m1.1.trans m2.1.symm, m1.2.trans m2.2.symm⟩

theorem id_unique {st : Store} (hInv : StoreInv st) {r1 r2 : Row}
    (h1 : r1 ∈ st.rows) (h2 : r2 ∈ st.rows) (h : r1.id = r2.id) : r1 = r2 := by
  by_contra hne
  have hsym : Symmetric (fun a b : Row => a.id ≠ b.id) := by
    intro x y hxy hc
    exact hxy hc.symm
  exact List.Pairwise.forall hsym hInv.2.1 h1 h2 hne h

theorem commit_eq_of_find_none {st : Store} {s b : String} (t : String)
    (hn : st.rows.find? (rowMatchesSM s b) = none) :
    commit st s b t = ⟨st.rows ++ [Row.mk st.nextId s b t], st.nextId + 1⟩ := by
  have hfilter : st.rows.filter (fun r => !rowMatchesTriple s b t r) = st.rows := by
    apply List.filter_eq_self.mpr
    intro r hr
    have hsm := List.find?_eq_none.mp hn r hr
    have hfalse : rowMatchesSM s b r = false := by
      cases hh : rowMatchesSM s b r
      · rfl
      · exact absurd hh hsm
    simp [rowMatchesTriple, hfalse]
  simp only [commit]
  rw [hn, hfilter]

theorem commit_eq_of_find_some {st : Store} {s b : String} (t : String) {r0 : Row}
    (hInv : StoreInv st) (hf : st.rows.find? (rowMatchesSM s b) = some r0) :
    commit st s b t =
      ⟨st.rows.map (fun r => if r.id == r0.id then Row.mk r0.id s b t else r),
       st.nextId⟩ := by
  have hr0 : r0 ∈ st.rows := List.mem_of_find?_eq_some hf
  have hm0 : rowMatchesSM s b r0 = true := List.find?_some hf
  have hfilter :
      st.rows.filter (fun r => r.id == r0.id || !rowMatchesTriple s b t r)
        = st.rows := by
    apply List.filter_eq_self.mpr
    intro r hr
    by_cases ht : rowMatchesTriple s b t r = true
    · have hrr0 : r = r0 := sm_unique hInv hr hr0 (sm_of_triple ht) hm0
      simp [hrr0]
    · rw [Bool.not_eq_true] at ht
      simp [ht]
  simp only [commit, hf, hfilter]

theorem storeInv_empty : StoreInv emptyStore := by
  refine ⟨List.Pairwise.nil, List.Pairwise.nil, ?_⟩
  intro r hr
  simp [emptyStore] at hr

theorem storeInv_commit (st : Store) (s b t : String) (hInv : StoreInv st) :
    StoreInv (commit st s b t) := by
  cases hf : st.rows.find? (rowMatchesSM s b) with
  | none =>
      rw [commit_eq_of_find_none t hf]
      have hnotsm : ∀ r ∈ st.rows, rowMatchesSM s b r = false := by
        intro r hr
        cases hh : rowMatchesSM s b r
        · rfl
        · exact absurd hh (List.find?_eq_none.mp hf r hr)
      refine ⟨?_, ?_, ?_⟩
      · apply List.pairwise_append.mpr
        refine ⟨hInv.1, List.pairwise_singleton _ _, ?_⟩
        intro a ha r' hr'
        rw [List.mem_singleton] at hr'
        subst hr'
        rintro ⟨hs, hm⟩
        have hsm : rowMatchesSM s b a = true := by
          rw [rowMatchesSM_iff]
          exact ⟨hs, hm⟩
        rw [hnotsm a ha] at hsm
        exact Bool.noConfusion hsm
      · apply List.pairwise_append.mpr
        refine ⟨hInv.2.1, List.pairwise_singleton _ _, ?_⟩
        intro a ha r' hr'
        rw [List.mem_singleton] at hr'
        subst hr'
        exact Nat.ne_of_lt (hInv.2.2 a ha)
      · intro r hr
        rcases List.mem_append.mp hr with h | h
        · exact Nat.lt_succ_of_lt (hInv.2.2 r h)
        · rw [List.mem_singleton] at h
          subst h
          exact Nat.lt_succ_self _
  | some r0 =>
      rw [commit_eq_of_find_some t hInv hf]
      have hr0 : r0 ∈ st.rows := List.mem_of_find?_eq_some hf
      have hm0 : rowMatchesSM s b r0 = true := List.find?_some hf
      have hfid : ∀ r : Row,
          ((fun r => if r.id == r0.id then Row.mk r0.id s b t else r) r).id
            = r.id := by
        intro r
        by_cases h : r.id = r0.id
        · simp [h]
        · simp [h]
      refine ⟨?_, ?_, ?_⟩
      · apply List.pairwise_map.mpr
        apply List.Pairwise.imp_of_mem ?_ (hInv.1.and hInv.2.1)
        intro x y hx hy hxy
        rcases hxy with ⟨hsd, hid⟩
        by_cases hxid : x.id = r0.id
        · by_cases hyid : y.id = r0.id
          · exact absurd (hxid.trans hyid.symm) hid
          · simp only [hxid, beq_self_eq_true, if_pos, hyid, if_neg,
              beq_iff_eq]
            rintro ⟨hs, hm⟩
            have hy' : rowMatchesSM s b y = true := by
              rw [rowMatchesSM_iff]
              exact ⟨hs.symm, hm.symm⟩
            have hyr0 : y = r0 := sm_unique hInv hy hr0 hy' hm0
            exact hyid (by rw [hyr0])
        · by_cases hyid : y.id = r0.id
          · simp only [hxid, if_neg, hyid, beq_self_eq_true, if_pos,
              beq_iff_eq]
            rintro ⟨hs, hm⟩
            have hx' : rowMatchesSM s b x = true := by
              rw [rowMatchesSM_iff]
              exact ⟨hs, hm⟩
            have hxr0 : x = r0 := sm_unique hInv hx hr0 hx' hm0
            exact hxid (by rw [hxr0])
          · simp only [hxid, if_neg, hyid, beq_iff_eq]
            exact hsd
      · apply List.pairwise_map.mpr
        apply hInv.2.1.imp
        intro a b' h
        rw [hfid, hfid]
        exact h
      · intro r hr
        rcases List.mem_map.mp hr with ⟨x, hx, hfx⟩
        rw [← hfx, hfid]
        exact hInv.2.2 x hx

theorem reachable_storeInv {st : Store} (h : Reachable st) : StoreInv st := by
  induction h with
  | empty => exact storeInv_empty
  | step st s b t _ ih => exact storeInv_commit st s b t ih

theorem map_id_of_mem {l : List Row} {f : Row → Row} (h : ∀ a ∈ l, f a = a) :
    l.map f = l :=
  (List.map_congr_left h).trans (List.map_id l)

theorem find_after_replace (rows : List Row) (r0 : Row) (s b t : String)
    (hfind : rows.find? (rowMatchesSM s b) = some r0)
    (hid : ∀ r ∈ rows, r.id = r0.id → r = r0) :
    (rows.map (fun r => if r.id == r0.id then Row.mk r0.id s b t else r)).find?
        (rowMatchesSM s b) = some (Row.mk r0.id s b t) := by
  induction rows with
  | nil => exact absurd hfind (by simp)
  | cons a as ih =>
      by_cases hpa : rowMatchesSM s b a = true
      · rw [List.find?_cons_of_pos _ hpa] at hfind
        have ha : a = r0 := by injection hfind
        subst ha
        simp only [List.map_cons, beq_self_eq_true, if_pos]
        apply List.find?_cons_of_pos
        rw [rowMatchesSM_iff]
        exact ⟨rfl, rfl⟩
      · rw [List.find?_cons_of_neg _ hpa] at hfind
        have haid : ¬(a.id = r0.id) := by
          intro h
          have ha : a = r0 := hid a (List.mem_cons_self a as) h
          subst ha
          exact hpa (List.find?_some hfind)
        have hbeq : (a.id == r0.id) = false := beq_eq_false_iff_ne.mpr haid
        simp only [List.map_cons, hbeq, Bool.false_eq_true, if_neg,
          not_false_eq_true]
        rw [List.find?_cons_of_neg _ hpa]
        exact ih hfind (fun r hr h => hid r (List.mem_cons_of_mem a hr) h)

theorem commit_commit_eq (st : Store) (s b t : String) (hInv : StoreInv st) :
    commit (commit st s b t) s b t = commit st s b t := by
  have hInv1 : StoreInv (commit st s b t) := storeInv_commit st s b t hInv
  cases hf : st.rows.find? (rowMatchesSM s b) with
  | none =>
      have h1 := commit_eq_of_find_none t hf
      have hnew : rowMatchesSM s b (Row.mk st.nextId s b t) = true := by
        rw [rowMatchesSM_iff]
        exact ⟨rfl, rfl⟩
      have hfind1 : (commit st s b t).rows.find? (rowMatchesSM s b)
          = some (Row.mk st.nextId s b t) := by
        rw [h1]
        rw [List.find?_append, hf]
        simp [hnew]
      rw [commit_eq_of_find_some t hInv1 hfind1, h1]
      congr 1
      apply map_id_of_mem
      intro a ha
      rcases List.mem_append.mp ha with h | h
      · have hlt : a.id < st.nextId := hInv.2.2 a h
        have hbeq : (a.id == (Row.mk st.nextId s b t).id) = false :=
          beq_eq_false_iff_ne.mpr (Nat.ne_of_lt hlt)
        simp [hbeq]
      · rw [List.mem_singleton] at h
        subst h
        simp
  | some r0 =>
      have h1 := commit_eq_of_find_some t hInv hf
      have hr0 : r0 ∈ st.rows := List.mem_of_find?_eq_some hf
      have hid : ∀ r ∈ st.rows, r.id = r0.id → r = r0 :=
        fun r hr h => id_unique hInv hr hr0 h
      have hfind1 : (commit st s b t).rows.find? (rowMatchesSM s b)
          = some (Row.mk r0.id s b t) := by
        rw [h1]
        exact find_after_replace st.rows r0 s b t hf hid
      rw [commit_eq_of_find_some t hInv1 hfind1, h1]
      congr 1
      rw [List.map_map]
      apply List.map_congr_left
      intro a ha
      by_cases h : a.id = r0.id
      · simp [Function.comp, h]
      · simp [Function.comp, h]

theorem filter_by_id_single (rows : List Row) (r0 : Row)
    (hpw : rows.Pairwise (fun r1 r2 => r1.id ≠ r2.id)) (hmem : r0 ∈ rows) :
    rows.filter (fun r => r.id == r0.id) = [r0] := by
  induction rows with
  | nil => exact absurd hmem (List.not_mem_nil r0)
  | cons a as ih =>
      have hhead := List.pairwise_cons.mp hpw
      rcases List.mem_cons.mp hmem with ha | ha
      · subst ha
        have hnil : as.filter (fun r => r.id == r0.id) = [] := by
          rw [List.filter_eq_nil_iff]
          intro b hb
          simp only [beq_iff_eq]
          exact fun he => (hhead.1 b hb) he.symm
        simp [List.filter_cons, hnil]
      · have hane : (a.id == r0.id) = false :=
          beq_eq_false_iff_ne.mpr (hhead.1 r0 ha)
        rw [List.filter_cons_of_neg]
        · exact ih hhead.2 ha
        · simp [hane]

theorem commit_triple_filter (st : Store) (s b t : String) (hInv : StoreInv st) :
    ((commit st s b t).rows.filter (rowMatchesTriple s b t)).length = 1 := by
  cases hf : st.rows.find? (rowMatchesSM s b) with
  | none =>
      rw [commit_eq_of_find_none t hf]
      have h1 : st.rows.filter (rowMatchesTriple s b t) = [] := by
        rw [List.filter_eq_nil_iff]
        intro r hr ht
        exact (List.find?_eq_none.mp hf r hr) (sm_of_triple ht)
      have h2 : rowMatchesTriple s b t (Row.mk st.nextId s b t) = true := by
        rw [rowMatchesTriple_iff]
        exact ⟨rfl, rfl, rfl⟩
      rw [List.filter_append, h1]
      simp [h2]
  | some r0 =>
      rw [commit_eq_of_find_some t hInv hf]
      have hr0 : r0 ∈ st.rows := List.mem_of_find?_eq_some hf
      have hm0 : rowMatchesSM s b r0 = true := List.find?_some hf
      rw [List.filter_map]
      have hcong : st.rows.filter
            ((rowMatchesTriple s b t) ∘
              fun r => if r.id == r0.id then Row.mk r0.id s b t else r)
          = st.rows.filter (fun r => r.id == r0.id) := by
        apply List.filter_congr
        intro r hr
        by_cases h : r.id = r0.id
        · simp only [Function.comp_apply, h, beq_self_eq_true, if_pos]
          have ht : rowMatchesTriple s b t (Row.mk r0.id s b t) = true := by
            rw [rowMatchesTriple_iff]
            exact ⟨rfl, rfl, rfl⟩
          simp [ht]
        · have hbeq : (r.id == r0.id) = false := beq_eq_false_iff_ne.mpr h
          simp only [Function.comp_apply, hbeq, Bool.false_eq_true, if_neg,
            not_false_eq_true]
          cases hh : rowMatchesTriple s b t r
          · rfl
          · have hrr0 : r = r0 := sm_unique hInv hr hr0 (sm_of_triple hh) hm0
            exact absurd (by rw [hrr0]) h
      rw [hcong, filter_by_id_single st.rows r0 hInv.2.1 hr0]
      rfl

theorem commit_rows_length (st : Store) (s b t : String) (hInv : StoreInv st) :
    (commit st s b t).rows.length ≤ st.rows.length + 1 := by
  cases hf : st.rows.find? (rowMatchesSM s b) with
  | none =>
      rw [commit_eq_of_find_none t hf]
      simp
  | some r0 =>
      rw [commit_eq_of_find_some t hInv hf]
      simp

theorem history_length (st : Store) : (history st).length = st.rows.length :=
  (List.perm_insertionSort tsLe st.rows).length_eq

/-- C1: committing the same (sender, body, timestamp) triple twice leaves
exactly one stored row for that triple, the repeated commit is a no-op (the
second commit returns the store unchanged, so it succeeds without surfacing
the uniqueness conflict, which REPLACE resolves internally), and the
snapshot length increases by at most 1 over the prior store state. -/
theorem commit_same_triple_idempotent (st : Store) (s b t : String)
    (h : Reachable st) :
    commit (commit st s b t) s b t = commit st s b t ∧
    ((commit (commit st s b t) s b t).rows.filter
        (rowMatchesTriple s b t)).length = 1 ∧
    (history (commit (commit st s b t) s b t)).length
      ≤ (history st).length + 1 := by
  have hInv := reachable_storeInv h
  have hidem := commit_commit_eq st s b t hInv
  refine ⟨hidem, ?_, ?_⟩
  · rw [hidem]
    exact commit_triple_filter st s b t hInv
  · rw [hidem, history_length, history_length]
    exact commit_rows_length st s b t hInv

/-- C1 witness: the double-commit property evaluated on the empty store. -/
theorem commit_same_triple_idempotent_witness :
    Reachable emptyStore ∧
    (commit (commit emptyStore "a@x" "hi" "T1") "a@x" "hi" "T1"
        = commit emptyStore "a@x" "hi" "T1" ∧
      ((commit (commit emptyStore "a@x" "hi" "T1") "a@x" "hi" "T1").rows.filter
          (rowMatchesTriple "a@x" "hi" "T1")).length = 1 ∧
      (history (commit (commit emptyStore "a@x" "hi" "T1") "a@x" "hi" "T1")).length
        ≤ (history emptyStore).length + 1) :=
  ⟨Reachable.empty,
    commit_same_triple_idempotent emptyStore "a@x" "hi" "T1" Reachable.empty⟩

/-- C2 (amended): a stored row survives any commit whose (sender, body) pair
differs from the row's own pair — no update or delete path touches it.  (The
unamended claim, immutability under any commit with a different full triple,
fails: a commit sharing the row's (sender, body) but carrying a different
timestamp reuses the row's id and overwrites it, see the counterexample.) -/
theorem row_preserved_of_sender_body_ne (st : Store) (h : Reachable st)
    (r : Row) (hr : r ∈ st.rows) (s b t : String)
    (hne : ¬(r.sender = s ∧ r.message = b)) :
    r ∈ (commit st s b t).rows := by
  have hInv := reachable_storeInv h
  cases hf : st.rows.find? (rowMatchesSM s b) with
  | none =>
      rw [commit_eq_of_find_none t hf]
      exact List.mem_append_left _ hr
  | some r0 =>
      rw [commit_eq_of_find_some t hInv hf]
      have hr0 : r0 ∈ st.rows := List.mem_of_find?_eq_some hf
      have hm0 : rowMatchesSM s b r0 = true := List.find?_some hf
      have hrid : ¬(r.id = r0.id) := by
        intro h2
        have hre : r = r0 := id_unique hInv hr hr0 h2
        subst hre
        rw [rowMatchesSM_iff] at hm0
        exact hne hm0
      have hbeq : (r.id == r0.id) = false := beq_eq_false_iff_ne.mpr hrid
      have hfr : (fun rr => if rr.id == r0.id then Row.mk r0.id s b t else rr) r
          = r := by
        simp [hbeq]
      have hmem := List.mem_map_of_mem
        (fun rr => if rr.id == r0.id then Row.mk r0.id s b t else rr) hr
      rwa [hfr] at hmem

/-- C2 witness: immutability under a commit with a different sender, on a
one-row store. -/
theorem row_preserved_of_sender_body_ne_witness :
    Reachable (commit emptyStore "a@x" "hi" "T1") ∧
    Row.mk 1 "a@x" "hi" "T1" ∈ (commit emptyStore "a@x" "hi" "T1").rows ∧
    ¬((Row.mk 1 "a@x" "hi" "T1").sender = "b@x" ∧
      (Row.mk 1 "a@x" "hi" "T1").message = "yo") ∧
    Row.mk 1 "a@x" "hi" "T1"
      ∈ (commit (commit emptyStore "a@x" "hi" "T1") "b@x" "yo" "T2").rows :=
  ⟨Reachable.step emptyStore "a@x" "hi" "T1" Reachable.empty,
    by decide,
    by decide,
    row_preserved_of_sender_body_ne (commit emptyStore "a@x" "hi" "T1")
      (Reachable.step emptyStore "a@x" "hi" "T1" Reachable.empty)
      (Row.mk 1 "a@x" "hi" "T1") (by decide) "b@x" "yo" "T2" (by decide)⟩

/-- C2 counterexample: the claim as stated is false.  The row
(1, a@x, hi, T1) exists after the first commit; a second commit with the
different triple (a@x, hi, T2) — same sender and body, different
timestamp — deletes that row, overwriting its timestamp in place. -/
theorem commit_rewrites_row_on_same_sender_body :
    ("T1" : String) ≠ "T2" ∧
    Row.mk 1 "a@x" "hi" "T1" ∈ (commit emptyStore "a@x" "hi" "T1").rows ∧
    Row.mk 1 "a@x" "hi" "T1" ∉
      (commit (commit emptyStore "a@x" "hi" "T1") "a@x" "hi" "T2").rows ∧
    (commit (commit emptyStore "a@x" "hi" "T1") "a@x" "hi" "T2").rows
      = [Row.mk 1 "a@x" "hi" "T2"] := by
  decide

/-- C9: the effective deduplication key of the commit is (sender, body)
alone.  First conjunct: in every reachable store, no two rows share the same
(sender, body) pair.  Second conjunct: committing an existing row's sender
and body with any timestamp replaces that row in place — the row count is
unchanged, the row's id now carries the new timestamp, and (when the
timestamp differs) the old row is gone rather than a second row added. -/
theorem dedup_key_is_sender_body (st : Store) (h : Reachable st) :
    (∀ r1 ∈ st.rows, ∀ r2 ∈ st.rows,
        r1.sender = r2.sender → r1.message = r2.message → r1 = r2) ∧
    (∀ r ∈ st.rows, ∀ t : String,
        (commit st r.sender r.message t).rows.length = st.rows.length ∧
        Row.mk r.id r.sender r.message t
          ∈ (commit st r.sender r.message t).rows ∧
        (r.timestamp ≠ t → r ∉ (commit st r.sender r.message t).rows)) := by
  have hInv := reachable_storeInv h
  constructor
  · intro r1 h1 r2 h2 hs hm
    have m1 : rowMatchesSM r2.sender r2.message r1 = true := by
      rw [rowMatchesSM_iff]
      exact ⟨hs, hm⟩
    have m2 : rowMatchesSM r2.sender r2.message r2 = true := by
      rw [rowMatchesSM_iff]
      exact ⟨rfl, rfl⟩
    exact sm_unique hInv h1 h2 m1 m2
  · intro r hr t
    have hmr : rowMatchesSM r.sender r.message r = true := by
      rw [rowMatchesSM_iff]
      exact ⟨rfl, rfl⟩
    have hsome : (st.rows.find? (rowMatchesSM r.sender r.message)).isSome := by
      rw [List.find?_isSome]
      exact ⟨r, hr, hmr⟩
    obtain ⟨r0, hf⟩ := Option.isSome_iff_exists.mp hsome
    have hr0 : r0 ∈ st.rows := List.mem_of_find?_eq_some hf
    have hm0 := List.find?_some hf
    have hrr0 : r = r0 := sm_unique hInv hr hr0 hmr hm0
    subst hrr0
    rw [commit_eq_of_find_some t hInv hf]
    refine ⟨by simp, ?_, ?_⟩
    · exact List.mem_map.mpr ⟨r, hr, by simp⟩
    · intro hts hmem
      rcases List.mem_map.mp hmem with ⟨x, hx, hfx⟩
      by_cases hxid : x.id = r.id
      · have hbeq : (x.id == r.id) = true := beq_iff_eq.mpr hxid
        simp only [hbeq, if_pos] at hfx
        have hteq : t = r.timestamp := congrArg Row.timestamp hfx
        exact hts hteq.symm
      · have hbeq : (x.id == r.id) = false := beq_eq_false_iff_ne.mpr hxid
        simp only [hbeq, Bool.false_eq_true, if_neg, not_false_eq_true] at hfx
        exact hxid (by rw [hfx])

/-- C9 witness: replacing the timestamp of the one row of a one-row store. -/
theorem dedup_key_is_sender_body_witness :
    Reachable (commit emptyStore "a@x" "hi" "T1") ∧
    (commit (commit emptyStore "a@x" "hi" "T1") "a@x" "hi" "T2").rows.length
      = (commit emptyStore "a@x" "hi" "T1").rows.length ∧
    Row.mk 1 "a@x" "hi" "T2"
      ∈ (commit (commit emptyStore "a@x" "hi" "T1") "a@x" "hi" "T2").rows := by
  refine ⟨Reachable.step emptyStore "a@x" "hi" "T1" Reachable.empty, ?_⟩
  have h := (dedup_key_is_sender_body (commit emptyStore "a@x" "hi" "T1")
      (Reachable.step emptyStore "a@x" "hi" "T1" Reachable.empty)).2
      (Row.mk 1 "a@x" "hi" "T1") (by decide) "T2"
  exact ⟨h.1, h.2.1⟩

/-- C3: the snapshot returns the full set of committed rows — a permutation
of the table contents — as a sequence sorted ascending by the timestamp
column; hence after any sequence of commits (in particular N sequential
local-send commits) the snapshot is in non-decreasing timestamp order. -/
theorem history_full_and_sorted (st : Store) :
    (history st).Perm st.rows ∧ (history st).Sorted tsLe :=
  ⟨List.perm_insertionSort tsLe st.rows, List.sorted_insertionSort tsLe st.rows⟩

theorem broadcastMessage_eq (clients : List Conn) (writeFails : Conn → Bool) :
    broadcastMessage clients writeFails
      = (clients.filter (fun c => !writeFails c), clients) := by
  have hgen : ∀ (cs : List Conn) (a1 a2 : List Conn),
      cs.foldl (fun acc c =>
          (if writeFails c then acc.1 else acc.1 ++ [c], acc.2 ++ [c])) (a1, a2)
        = (a1 ++ cs.filter (fun c => !writeFails c), a2 ++ cs) := by
    intro cs
    induction cs with
    | nil =>
        intro a1 a2
        simp
    | cons c cs ih =>
        intro a1 a2
        cases hc : writeFails c
        · simp only [List.foldl_cons, hc, Bool.false_eq_true, if_neg,
            not_false_eq_true, ih, List.filter_cons, Bool.not_false, if_pos,
            List.append_assoc, List.cons_append, List.nil_append,
            List.singleton_append]
        · simp only [List.foldl_cons, hc, if_pos, ih, List.filter_cons,
            Bool.not_true, Bool.false_eq_true, if_neg, not_false_eq_true,
            List.append_assoc, List.cons_append, List.nil_append,
            List.singleton_append]
  rw [broadcastMessage, hgen]
  simp

/-- C4: if subscriber S's write fails during a Publish, S is removed from
the registry the call returns, every registered subscriber (S included)
still gets its delivery attempt, every subscriber whose write succeeds stays
registered, and the call completes with exactly one attempt per registered
subscriber regardless of individual outcomes. -/
theorem publish_fault_isolation (clients : List Conn) (writeFails : Conn → Bool)
    (S : Conn) (hS : S ∈ clients) (hfail : writeFails S = true) :
    S ∉ (broadcastMessage clients writeFails).1 ∧
    (∀ c ∈ clients, c ∈ (broadcastMessage clients writeFails).2) ∧
    (∀ c ∈ clients, writeFails c = false →
        c ∈ (broadcastMessage clients writeFails).1) ∧
    (broadcastMessage clients writeFails).2 = clients := by
  rw [broadcastMessage_eq]
  refine ⟨?_, ?_, ?_, rfl⟩
  · intro hmem
    have hkeep := List.of_mem_filter hmem
    rw [hfail] at hkeep
    exact Bool.noConfusion hkeep
  · intro c hc
    exact hc
  · intro c hc hok
    exact List.mem_filter.mpr ⟨hc, by rw [hok]; rfl⟩

/-- C4 witness: two subscribers, the first one failing. -/
theorem publish_fault_isolation_witness :
    (1 : Conn) ∈ ([1, 2] : List Conn) ∧
    (fun c : Conn => c == 1) 1 = true ∧
    ((1 : Conn) ∉ (broadcastMessage [1, 2] (fun c => c == 1)).1 ∧
      (∀ c ∈ ([1, 2] : List Conn),
          c ∈ (broadcastMessage [1, 2] (fun c => c == 1)).2) ∧
      (∀ c ∈ ([1, 2] : List Conn), (fun c : Conn => c == 1) c = false →
          c ∈ (broadcastMessage [1, 2] (fun c => c == 1)).1) ∧
      (broadcastMessage [1, 2] (fun c => c == 1)).2 = [1, 2]) :=
  ⟨by decide, by decide,
    publish_fault_isolation [1, 2] (fun c => c == 1) 1 (by decide) (by decide)⟩

/-- C5: on a storage fault the ingest path logs and returns: the message is
not committed (store unchanged, so later messages are processed against the
same state), nothing is broadcast, and the handler still returns normally
rather than panicking or propagating the error. -/
theorem storage_fault_drops_message (w : World) (st : Store) (input : InMsg)
    (hdb : w.dbFail = true) (htz : w.tzAvailable = true) :
    handleIncomingMessage w st input = some (st, none) := by
  cases input with
  | other => rfl
  | external s b ts => simp [handleIncomingMessage, htz, hdb]
  | localSend rcp b => simp [handleIncomingMessage, htz, hdb]

/-- C5 witness: a storage fault on an external event over the empty store. -/
theorem storage_fault_drops_message_witness :
    (World.mk true "N" true).dbFail = true ∧
    (World.mk true "N" true).tzAvailable = true ∧
    handleIncomingMessage (World.mk true "N" true) emptyStore
        (InMsg.external "a@x" "hi" "T1") = some (emptyStore, none) :=
  ⟨rfl, rfl,
    storage_fault_drops_message (World.mk true "N" true) emptyStore
      (InMsg.external "a@x" "hi" "T1") rfl rfl⟩

/-- C6: when the external send collaborator fails, the handler responds 500
with the store untouched and nothing broadcast; only when the collaborator
succeeds does the local-send ingest path run (committing the mirrored copy
with the configured local sender and broadcasting it) with a 200 response. -/
theorem send_failure_500_store_unchanged (w : World) (st : Store)
    (req : SendRequest) (htz : w.tzAvailable = true) (hdb : w.dbFail = false) :
    sendMessage w st true true false req = some (500, st, none) ∧
    sendMessage w st true true true req
      = some (200, commit st localSenderJID req.message w.now,
          some (Payload.mk localSenderJID req.message w.now)) := by
  constructor
  · rfl
  · simp [sendMessage, handleIncomingMessage, htz, hdb]

/-- C6 witness: both branches on the empty store. -/
theorem send_failure_500_store_unchanged_witness :
    (World.mk true "N" false).tzAvailable = true ∧
    (World.mk true "N" false).dbFail = false ∧
    sendMessage (World.mk true "N" false) emptyStore true true false
        (SendRequest.mk "628" "hello") = some (500, emptyStore, none) :=
  ⟨rfl, rfl,
    (send_failure_500_store_unchanged (World.mk true "N" false) emptyStore
      (SendRequest.mk "628" "hello") rfl rfl).1⟩

/-- C8: with the storage reads succeeding, receiveMessage on an empty store
responds 200 with the explicit no-messages marker (not an error, not an
empty list), and on a non-empty store responds 200 with the message list in
ascending timestamp order. -/
theorem receive_empty_marker (qFail iterFail : Bool) (st : Store)
    (hq : qFail = false) (hi : iterFail = false) :
    (st.rows = [] →
        receiveMessage qFail iterFail st = (200, ReceiveBody.noMessages)) ∧
    (st.rows ≠ [] →
        receiveMessage qFail iterFail st
            = (200, ReceiveBody.messageList (history st)) ∧
          (history st).Sorted tsLe) := by
  subst hq
  subst hi
  constructor
  · intro h
    have hh : history st = [] := by
      rw [history, h]
      rfl
    simp [receiveMessage, hh]
  · intro h
    have hlen : ¬((history st).length = 0) := by
      rw [history_length]
      exact fun hc => h (List.length_eq_zero.mp hc)
    exact ⟨by simp [receiveMessage, hlen], List.sorted_insertionSort tsLe st.rows⟩

/-- C8 witness: the empty-store branch. -/
theorem receive_empty_marker_witness :
    (false : Bool) = false ∧ emptyStore.rows = [] ∧
    receiveMessage false false emptyStore = (200, ReceiveBody.noMessages) :=
  ⟨rfl, rfl, (receive_empty_marker false false emptyStore rfl rfl).1 rfl⟩

/-- C7 counterexample: with a single registered client whose write succeeds,
the trace of broadcastMessage is lock, WriteJSON, unlock — the WriteJSON
call happens while wsMutex is held, so the claim that the lock is never held
across an individual transport write (or that writes are bounded or moved
outside the lock) is false for this code. -/
theorem send_under_lock_counterexample :
    broadcastTrace [7] (fun _ => false)
      = [BEv.lockAcq, BEv.sendJSON 7, BEv.lockRel] ∧
    sendsLocked (broadcastTrace [7] (fun _ => false)) false = [7] ∧
    ([7] : List Conn) ≠ [] := by
  refine ⟨rfl, rfl, by decide⟩

/-- C7 (amended): broadcastMessage holds wsMutex across the entire
iterate-and-write loop: every per-subscriber WriteJSON call — for every
registry and every pattern of write failures — occurs while the mutex is
held, with no timeout bounding it.  Since handleWebSocket registers a new
subscriber under the same mutex, a write that blocks delays registration. -/
theorem sendsLocked_acq (evs : List BEv) (lk : Bool) :
    sendsLocked (BEv.lockAcq :: evs) lk = sendsLocked evs true := rfl

theorem sendsLocked_send (c : Conn) (evs : List BEv) :
    sendsLocked (BEv.sendJSON c :: evs) true = c :: sendsLocked evs true := rfl

theorem sendsLocked_close (c : Conn) (evs : List BEv) (lk : Bool) :
    sendsLocked (BEv.connClose c :: evs) lk = sendsLocked evs lk := rfl

theorem sendsLocked_drop (c : Conn) (evs : List BEv) (lk : Bool) :
    sendsLocked (BEv.connDrop c :: evs) lk = sendsLocked evs lk := rfl

theorem all_sends_inside_lock (clients : List Conn) (writeFails : Conn → Bool) :
    sendsLocked (broadcastTrace clients writeFails) false = clients := by
  have hmid : ∀ cs : List Conn,
      sendsLocked ((cs.flatMap (fun c => BEv.sendJSON c ::
          (if writeFails c then [BEv.connClose c, BEv.connDrop c] else [])))
        ++ [BEv.lockRel]) true = cs := by
    intro cs
    induction cs with
    | nil => rfl
    | cons c cs ih =>
        cases hc : writeFails c
        · simp only [List.flatMap_cons, hc, Bool.false_eq_true, if_neg,
            not_false_eq_true, List.nil_append, List.cons_append,
            List.append_assoc, sendsLocked_send]
          simp only [List.append_assoc] at ih
          rw [ih]
        · simp only [List.flatMap_cons, hc, if_pos, List.cons_append,
            List.nil_append, List.append_assoc, sendsLocked_send,
            sendsLocked_close, sendsLocked_drop]
          simp only [List.append_assoc] at ih
          rw [ih]
  rw [broadcastTrace]
  simp only [List.singleton_append, List.cons_append, List.append_assoc]
  rw [sendsLocked_acq]
  have := hmid clients
  simp only [List.append_assoc] at this
  exact this

/-- C10: the ingest path discards the LoadLocation error return.  With the
timezone database available every input completes without panic; with it
unavailable, both message-shaped inputs — the external event and the local
send request, the only shapes the program ever passes — panic at the
nil-location timestamp conversion, modelled as the effect-free `none` result
(no store commit and no broadcast has happened at the panic point). -/
theorem tz_unavailable_panics (w : World) (st : Store) :
    (w.tzAvailable = true →
        ∀ input : InMsg, (handleIncomingMessage w st input).isSome) ∧
    (w.tzAvailable = false → ∀ s b ts : String,
        handleIncomingMessage w st (InMsg.external s b ts) = none) ∧
    (w.tzAvailable = false → ∀ rcp b : String,
        handleIncomingMessage w st (InMsg.localSend rcp b) = none) := by
  refine ⟨?_, ?_, ?_⟩
  · intro htz input
    cases input with
    | other => rfl
    | external s b ts =>
        cases hdb : w.dbFail <;> simp [handleIncomingMessage, htz, hdb]
    | localSend rcp b =>
        cases hdb : w.dbFail <;> simp [handleIncomingMessage, htz, hdb]
  · intro htz s b ts
    simp [handleIncomingMessage, htz]
  · intro htz rcp b
    simp [handleIncomingMessage, htz]

/-- C10 witness: no panic with the timezone available, panic without it. -/
theorem tz_unavailable_panics_witness :
    (World.mk true "N" false).tzAvailable = true ∧
    (handleIncomingMessage (World.mk true "N" false) emptyStore
        (InMsg.localSend "628" "hello")).isSome ∧
    (World.mk false "N" false).tzAvailable = false ∧
    handleIncomingMessage (World.mk false "N" false) emptyStore
        (InMsg.external "a@x" "hi" "T1") = none :=
  ⟨rfl,
    (tz_unavailable_panics (World.mk true "N" false) emptyStore).1 rfl
      (InMsg.localSend "628" "hello"),
    rfl,
    (tz_unavailable_panics (World.mk false "N" false) emptyStore).2.1 rfl
      "a@x" "hi" "T1"⟩
